import Mathlib

/-!
Verification of the cron-expression parser (src/index.ts).

The TypeScript source is shallowly embedded below.  Strings are processed
as `List Char` (the `.data` of a `String`), so that every definition is
structurally recursive and kernel-reducible.  JavaScript semantics that the
source relies on are modelled explicitly:

* `parseIntChars` models `parseInt(s, 10)`: skip leading whitespace, an
  optional sign, then the longest run of decimal digits; `NaN` becomes
  `none`.
* `splitOnChar` models `String.prototype.split` with a one-character
  separator (empty segments are kept, `"".split(c) = [""]`).
* The `Set<number>` accumulator plus `Array.from(values).sort((a,b)=>a-b)`
  is modelled by duplicate-free insertion (`setAdd`) followed by
  `List.insertionSort`.
* Thrown `Error`s become `Except ParseError`; each constructor carries the
  data interpolated into the source's message, and `ParseError.message`
  reproduces the exact message text.
-/

namespace Cron

/-- Error taxonomy of the parser; constructors carry the values the source
interpolates into the thrown message. -/
inductive ParseError where
  | invalidStep (stepStr : String)
  | invalidRangeInStep (range : String)
  | invalidValueInStep (range : String)
  | invalidRange (part : String)
  | invalidRangeOrder (start finish : Int)
  | invalidValue (part : String)
  | outOfRange (value lo hi : Int)
  | malformedExpression (count : Nat)
deriving DecidableEq

/-- Exact message text thrown by the source for each error. -/
def ParseError.message : ParseError → String
  | .invalidStep s => "Invalid step value: " ++ s
  | .invalidRangeInStep r => "Invalid range in step expression: " ++ r
  | .invalidValueInStep r => "Invalid value in step expression: " ++ r
  | .invalidRange p => "Invalid range: " ++ p
  | .invalidRangeOrder s e =>
      "Invalid range: start (" ++ toString s ++ ") > end (" ++ toString e ++ ")"
  | .invalidValue p => "Invalid value: " ++ p
  | .outOfRange v lo hi =>
      "Value " ++ toString v ++ " out of range [" ++ toString lo ++ "-" ++ toString hi ++ "]"
  | .malformedExpression n =>
      "Invalid cron expression. Expected at least 6 fields, got " ++ toString n ++
      ". Format: <minute> <hour> <day of month> <month> <day of week> <command>"

/-- Classification following the spec's taxonomy: both range messages of the
source ("Invalid range" and "Invalid range in step expression"), and the
ordering violation, count as `InvalidRange`. -/
def ParseError.isInvalidRange : ParseError → Bool
  | .invalidRangeInStep _ => true
  | .invalidRange _ => true
  | .invalidRangeOrder _ _ => true
  | _ => false

/-- Classification following the spec's taxonomy: a bare-integer parse
failure, inside or outside a step expression, is `InvalidValue`. -/
def ParseError.isInvalidValue : ParseError → Bool
  | .invalidValueInStep _ => true
  | .invalidValue _ => true
  | _ => false

/-- Classification: the error is the step-value rejection. -/
def ParseError.isInvalidStep : ParseError → Bool
  | .invalidStep _ => true
  | _ => false

/-- Classification: the error is the single-value out-of-range rejection. -/
def ParseError.isOutOfRange : ParseError → Bool
  | .outOfRange _ _ _ => true
  | _ => false

/-- Digit-run value used by `parseIntChars`: the longest leading run of
decimal digits, or `none` when there is none (JS `NaN`). -/
def digitsVal (l : List Char) : Option Nat :=
  if (l.takeWhile Char.isDigit).isEmpty then none
  else some ((l.takeWhile Char.isDigit).foldl (fun acc c => acc * 10 + (c.toNat - 48)) 0)

/-- Model of JavaScript `parseInt(s, 10)`: skip leading whitespace, consume
an optional sign, then the longest run of decimal digits; no digits means
`NaN`, modelled as `none`. -/
def parseIntChars (l : List Char) : Option Int :=
  match l.dropWhile Char.isWhitespace with
  | [] => none
  | c :: rest =>
    if c = '-' then (digitsVal rest).map (fun n : Nat => -(n : Int))
    else if c = '+' then (digitsVal rest).map (fun n : Nat => (n : Int))
    else (digitsVal (c :: rest)).map (fun n : Nat => (n : Int))

/-- Characterisation written from the claim's words, for comparison with
`parseIntChars`: whether the token has a decimal digit at its start, after
leading whitespace and an optional sign. -/
def hasLeadingDigit (l : List Char) : Bool :=
  match l.dropWhile Char.isWhitespace with
  | [] => false
  | c :: rest =>
    if c = '-' then (rest.headD ' ').isDigit
    else if c = '+' then (rest.headD ' ').isDigit
    else c.isDigit

/-- Accumulator for `splitOnChar`. -/
def splitOnCharAux (sep : Char) : List Char → List Char → List (List Char)
  | [], acc => [acc.reverse]
  | c :: cs, acc =>
      if c = sep then acc.reverse :: splitOnCharAux sep cs []
      else splitOnCharAux sep cs (c :: acc)

/-- Model of JS `String.prototype.split` with a single-character separator:
empty segments are kept and the empty string yields `[[]]`. -/
def splitOnChar (sep : Char) (l : List Char) : List (List Char) :=
  splitOnCharAux sep l []

/-- The `range` component of a step sub-expression: JS
`const [range, stepStr] = part.split('/')` takes element 0. -/
def rangeOf (part : List Char) : List Char :=
  (splitOnChar '/' part).getD 0 []

/-- The `stepStr` component of a step sub-expression: element 1 of the
split; a missing element is JS `undefined`, whose `parseInt` is `NaN`,
matched here by the empty default. -/
def stepStrOf (part : List Char) : List Char :=
  (splitOnChar '/' part).getD 1 []

/-- The `start` component of `range.split('-')` (element 0). -/
def rangeStartStr (range : List Char) : List Char :=
  (splitOnChar '-' range).getD 0 []

/-- The `end` component of `range.split('-')` (element 1); extra segments
beyond the second are discarded, as JS destructuring does. -/
def rangeEndStr (range : List Char) : List Char :=
  (splitOnChar '-' range).getD 1 []

/-- The source's range-branch guard `part.includes('-') && part.indexOf('-') > 0`:
the first character is not a hyphen and a hyphen occurs later. -/
def isRangeForm : List Char → Bool
  | [] => false
  | c :: cs => (c != '-') && cs.contains '-'

/-- The ascending integer interval `[lo, hi]` (empty when `hi < lo`),
matching `for (let i = lo; i <= hi; i++)`. -/
def intRange (lo hi : Int) : List Int :=
  (List.range (hi + 1 - lo).toNat).map (fun k : Nat => lo + (k : Int))

/-- Values of `for (let i = lo; i <= hi; i += step)` for a positive step:
`lo, lo+step, ...` up to `hi`. -/
def stepValues (lo hi step : Int) : List Int :=
  if hi < lo then []
  else (List.range ((hi - lo).toNat / step.toNat + 1)).map (fun k : Nat => lo + (k : Int) * step)

/-- The source's in-loop guard `i >= min && i <= max` applied to a list of
candidate values. -/
def windowFilter (lo hi : Int) (l : List Int) : List Int :=
  l.filter (fun i => decide (lo ≤ i) && decide (i ≤ hi))

/-- Expansion of one comma-separated sub-expression of a field, returning
the list of values the source's loops would `values.add` (in order), or the
error it throws.  Mirrors the branch cascade of `parseField`:
step form, range form, wildcard, single value. -/
def parseSubExpr (part : List Char) (lo hi : Int) : Except ParseError (List Int) :=
  if part.contains '/' then
    match parseIntChars (stepStrOf part) with
    | none => .error (.invalidStep (String.mk (stepStrOf part)))
    | some step =>
      if step ≤ 0 then .error (.invalidStep (String.mk (stepStrOf part)))
      else if rangeOf part = ['*'] then
        .ok (windowFilter lo hi (stepValues lo hi step))
      else if (rangeOf part).contains '-' then
        match parseIntChars (rangeStartStr (rangeOf part)),
              parseIntChars (rangeEndStr (rangeOf part)) with
        | some s, some e => .ok (windowFilter lo hi (stepValues s e step))
        | _, _ => .error (.invalidRangeInStep (String.mk (rangeOf part)))
      else
        match parseIntChars (rangeOf part) with
        | none => .error (.invalidValueInStep (String.mk (rangeOf part)))
        | some s => .ok (windowFilter lo hi (stepValues s hi step))
  else if isRangeForm part then
    match parseIntChars (rangeStartStr part), parseIntChars (rangeEndStr part) with
    | some s, some e =>
      if s > e then .error (.invalidRangeOrder s e)
      else .ok (windowFilter lo hi (intRange s e))
    | _, _ => .error (.invalidRange (String.mk part))
  else if part = ['*'] then
    .ok (intRange lo hi)
  else
    match parseIntChars part with
    | none => .error (.invalidValue (String.mk part))
    | some v =>
      if lo ≤ v ∧ v ≤ hi then .ok [v]
      else .error (.outOfRange v lo hi)

/-- JS `Set.add`: append the value unless already present (insertion order,
no duplicates). -/
def setAdd (l : List Int) (x : Int) : List Int :=
  if x ∈ l then l else l ++ [x]

/-- Add every emitted value of one sub-expression to the accumulator set. -/
def addAll (acc : List Int) (vs : List Int) : List Int :=
  vs.foldl setAdd acc

/-- Left-to-right traversal of the comma-separated parts, short-circuiting
on the first thrown error, accumulating the value set. -/
def parseFieldAux (parts : List (List Char)) (lo hi : Int) (acc : List Int) :
    Except ParseError (List Int) :=
  match parts with
  | [] => .ok acc
  | p :: ps =>
    match parseSubExpr p lo hi with
    | .error e => .error e
    | .ok vs => parseFieldAux ps lo hi (addAll acc vs)

/-- Numeric ascending sort, modelling `Array.from(values).sort((a,b)=>a-b)`. -/
def sortInts (l : List Int) : List Int :=
  List.insertionSort (· ≤ ·) l

/-- Embedding of `parseField(expression, min, max)`: split on commas,
expand every sub-expression into the value set, return it sorted
ascending, or the first error thrown. -/
def parseField (expression : String) (lo hi : Int) : Except ParseError (List Int) :=
  match parseFieldAux (splitOnChar ',' expression.data) lo hi [] with
  | .error e => .error e
  | .ok vs => .ok (sortInts vs)

/-- One cron field's configuration: display name and inclusive bounds. -/
structure FieldConfig where
  name : String
  min : Int
  max : Int
deriving DecidableEq

/-- The five field configurations, in source order. -/
def FIELD_CONFIGS : List FieldConfig :=
  [⟨"minute", 0, 59⟩, ⟨"hour", 0, 23⟩, ⟨"day of month", 1, 31⟩,
   ⟨"month", 1, 12⟩, ⟨"day of week", 0, 6⟩]

/-- Strip leading and trailing whitespace, modelling `String.prototype.trim`. -/
def trimChars (l : List Char) : List Char :=
  ((l.dropWhile Char.isWhitespace).reverse.dropWhile Char.isWhitespace).reverse

/-- Accumulator splitting a character list at every whitespace character
(empty segments kept, as in splitting on a single character). -/
def splitWsAux : List Char → List Char → List (List Char)
  | [], acc => [acc.reverse]
  | c :: cs, acc =>
      if c.isWhitespace then acc.reverse :: splitWsAux cs []
      else splitWsAux cs (c :: acc)

/-- Model of `s.trim().split(/\s+/)`: on the empty trimmed string the JS
regex split yields `[""]`; otherwise the trimmed string has no outer
whitespace, so splitting on `\s+` yields exactly the nonempty segments. -/
def tokensOf (s : String) : List String :=
  match trimChars s.data with
  | [] => [""]
  | t => ((splitWsAux t []).filter (fun w => !w.isEmpty)).map String.mk

/-- Model of `String.prototype.padEnd(n)` with spaces. -/
def padEnd (s : String) (n : Nat) : String :=
  s ++ String.mk (List.replicate (n - s.data.length) ' ')

/-- Join a list of strings with a separator, modelling `Array.prototype.join`. -/
def joinSep (sep : String) : List String → String
  | [] => ""
  | [x] => x
  | x :: xs => x ++ sep ++ joinSep sep xs

/-- Expand each (token, config) pair into its padded report line,
short-circuiting on the first field error, in field order. -/
def expandFields : List (String × FieldConfig) → Except ParseError (List String)
  | [] => .ok []
  | (field, cfg) :: rest =>
    match parseField field cfg.min cfg.max with
    | .error e => .error e
    | .ok values =>
      match expandFields rest with
      | .error e => .error e
      | .ok lines =>
        .ok ((padEnd cfg.name 14 ++ joinSep " " (values.map toString)) :: lines)

/-- Embedding of `parseCronExpression`: trim and whitespace-split the line,
require at least 6 tokens, expand the first five against `FIELD_CONFIGS`,
rejoin the remaining tokens as the command, and render the report. -/
def parseCronExpression (s : String) : Except ParseError String :=
  if (tokensOf s).length < 6 then
    .error (.malformedExpression (tokensOf s).length)
  else
    match expandFields (((tokensOf s).take 5).zip FIELD_CONFIGS) with
    | .error e => .error e
    | .ok lines =>
      .ok (joinSep "\n" (lines ++ [padEnd "command" 14 ++ joinSep " " ((tokensOf s).drop 5)]))

/-! ### Helper lemmas -/

theorem mem_windowFilter {lo hi : Int} {l : List Int} {x : Int} :
    x ∈ windowFilter lo hi l ↔ x ∈ l ∧ lo ≤ x ∧ x ≤ hi := by
  simp [windowFilter, List.mem_filter]

theorem mem_intRange {lo hi x : Int} : x ∈ intRange lo hi ↔ lo ≤ x ∧ x ≤ hi := by
  simp only [intRange, List.mem_map, List.mem_range]
  constructor
  · rintro ⟨k, hk, rfl⟩
    omega
  · rintro ⟨h1, h2⟩
    exact ⟨(x - lo).toNat, by omega, by omega⟩

theorem stepValues_empty {lo hi step : Int} (h : hi < lo) : stepValues lo hi step = [] := by
  simp [stepValues, h]

theorem mem_stepValues {lo hi step x : Int} (hstep : 0 < step) :
    x ∈ stepValues lo hi step ↔ ∃ k : Nat, x = lo + k * step ∧ x ≤ hi := by
  unfold stepValues
  split
  · next hlt =>
    simp only [List.not_mem_nil, false_iff, not_exists]
    rintro k ⟨rfl, hle⟩
    have hk : (0 : Int) ≤ (k : Int) * step := by positivity
    omega
  · next hge =>
    have hlo : lo ≤ hi := by omega
    have hs : ((step.toNat : Int)) = step := Int.toNat_of_nonneg hstep.le
    simp only [List.mem_map, List.mem_range, Nat.lt_succ_iff]
    constructor
    · rintro ⟨k, hk, rfl⟩
      refine ⟨k, rfl, ?_⟩
      have hk2 : k * step.toNat ≤ (hi - lo).toNat :=
        (Nat.le_div_iff_mul_le (by omega)).mp hk
      have hk3 : ((k * step.toNat : Nat) : Int) ≤ (((hi - lo).toNat : Nat) : Int) := by
        exact_mod_cast hk2
      push_cast [hs] at hk3
      rw [Int.toNat_of_nonneg (by omega)] at hk3
      linarith
    · rintro ⟨k, rfl, hle⟩
      refine ⟨k, ?_, rfl⟩
      rw [Nat.le_div_iff_mul_le (by omega)]
      have hle2 : (k : Int) * step ≤ hi - lo := by linarith
      have hle3 : ((k * step.toNat : Nat) : Int) ≤ hi - lo := by
        push_cast [hs]
        exact hle2
      have := Int.toNat_le_toNat hle3
      rwa [Int.toNat_natCast] at this

theorem parseSubExpr_bounds {part : List Char} {lo hi : Int} {l : List Int}
    (h : parseSubExpr part lo hi = .ok l) : ∀ x ∈ l, lo ≤ x ∧ x ≤ hi := by
  unfold parseSubExpr at h
  repeat' split at h
  all_goals cases h
  all_goals intro x hx
  all_goals
    first
      | exact (mem_windowFilter.mp hx).2
      | exact mem_intRange.mp hx
      | (rw [List.mem_singleton] at hx; subst hx; assumption)

theorem mem_setAdd {l : List Int} {x y : Int} : y ∈ setAdd l x ↔ y ∈ l ∨ y = x := by
  unfold setAdd
  split
  · next hx =>
    refine ⟨Or.inl, ?_⟩
    rintro (h | rfl)
    · exact h
    · exact hx
  · simp [List.mem_append]

theorem nodup_setAdd {l : List Int} {x : Int} (h : l.Nodup) : (setAdd l x).Nodup := by
  unfold setAdd
  split
  · exact h
  · next hx =>
    rw [← List.concat_eq_append]
    exact h.concat hx

theorem addAll_cons (acc : List Int) (v : Int) (vs : List Int) :
    addAll acc (v :: vs) = addAll (setAdd acc v) vs := rfl

theorem mem_addAll {acc vs : List Int} {y : Int} :
    y ∈ addAll acc vs ↔ y ∈ acc ∨ y ∈ vs := by
  induction vs generalizing acc with
  | nil => simp [addAll]
  | cons v vs ih =>
    rw [addAll_cons, ih, mem_setAdd]
    simp only [List.mem_cons]
    tauto

theorem nodup_addAll {acc vs : List Int} (h : acc.Nodup) : (addAll acc vs).Nodup := by
  induction vs generalizing acc with
  | nil => exact h
  | cons v vs ih => rw [addAll_cons]; exact ih (nodup_setAdd h)

theorem parseFieldAux_bounds {parts : List (List Char)} {lo hi : Int} {acc l : List Int}
    (hacc : ∀ x ∈ acc, lo ≤ x ∧ x ≤ hi)
    (h : parseFieldAux parts lo hi acc = .ok l) :
    ∀ x ∈ l, lo ≤ x ∧ x ≤ hi := by
  induction parts generalizing acc with
  | nil =>
    unfold parseFieldAux at h
    injection h with h
    subst h
    exact hacc
  | cons p ps ih =>
    unfold parseFieldAux at h
    cases hp : parseSubExpr p lo hi with
    | error e => rw [hp] at h; exact absurd h (by simp)
    | ok vs =>
      rw [hp] at h
      refine ih ?_ h
      intro x hx
      rcases mem_addAll.mp hx with hx | hx
      · exact hacc x hx
      · exact parseSubExpr_bounds hp x hx

theorem parseFieldAux_nodup {parts : List (List Char)} {lo hi : Int} {acc l : List Int}
    (hacc : acc.Nodup)
    (h : parseFieldAux parts lo hi acc = .ok l) : l.Nodup := by
  induction parts generalizing acc with
  | nil =>
    unfold parseFieldAux at h
    injection h with h
    subst h
    exact hacc
  | cons p ps ih =>
    unfold parseFieldAux at h
    cases hp : parseSubExpr p lo hi with
    | error e => rw [hp] at h; exact absurd h (by simp)
    | ok vs =>
      rw [hp] at h
      exact ih (nodup_addAll hacc) h

theorem sortInts_perm (l : List Int) : (sortInts l).Perm l :=
  List.perm_insertionSort _ l

theorem sortInts_sorted (l : List Int) : (sortInts l).Sorted (· ≤ ·) :=
  List.sorted_insertionSort _ l

theorem sorted_lt_of_le_nodup {l : List Int} (hs : l.Sorted (· ≤ ·)) (hn : l.Nodup) :
    l.Sorted (· < ·) :=
  (hs.and hn).imp (fun h => lt_of_le_of_ne h.1 h.2)

theorem digit_not_whitespace {c : Char} (h : c.isDigit = true) : c.isWhitespace = false := by
  cases hw : c.isWhitespace with
  | false => rfl
  | true =>
    exfalso
    simp only [Char.isWhitespace, Bool.or_eq_true, decide_eq_true_eq] at hw
    rcases hw with ((rfl | rfl) | rfl) | rfl <;> exact absurd h (by decide)

theorem digitsVal_none_iff {l : List Char} :
    digitsVal l = none ↔ (l.headD ' ').isDigit = false := by
  unfold digitsVal
  cases l with
  | nil => decide
  | cons c cs =>
    rw [List.takeWhile_cons]
    by_cases hc : c.isDigit
    · simp [hc]
    · simp [hc]

theorem takeWhile_digits_append (rest : List Char)
    (hrest : (rest.headD ' ').isDigit = false) :
    ∀ ds : List Char, ds.all Char.isDigit = true →
      (ds ++ rest).takeWhile Char.isDigit = ds := by
  intro ds
  induction ds with
  | nil =>
    intro _
    rw [List.nil_append]
    cases rest with
    | nil => rfl
    | cons c cs =>
      simp only [List.headD_cons] at hrest
      rw [List.takeWhile_cons]
      simp [hrest]
  | cons d ds ih =>
    intro hds
    simp only [List.all_cons, Bool.and_eq_true] at hds
    rw [List.cons_append, List.takeWhile_cons]
    simp [hds.1, ih hds.2]

theorem parseIntChars_append_junk {ds rest : List Char} (hne : ds ≠ [])
    (hds : ds.all Char.isDigit = true) (hrest : (rest.headD ' ').isDigit = false) :
    parseIntChars (ds ++ rest) = parseIntChars ds := by
  cases ds with
  | nil => exact absurd rfl hne
  | cons d ds' =>
    simp only [List.all_cons, Bool.and_eq_true] at hds
    have hd := hds.1
    have hw : d.isWhitespace = false := digit_not_whitespace hd
    have hm : ¬ d = '-' := by rintro rfl; exact absurd hd (by decide)
    have hp : ¬ d = '+' := by rintro rfl; exact absurd hd (by decide)
    have hall : (d :: ds').all Char.isDigit = true := by
      simp [List.all_cons, hd, hds.2]
    have h1 : ((d :: ds') ++ rest).takeWhile Char.isDigit = d :: ds' :=
      takeWhile_digits_append rest hrest (d :: ds') hall
    have h2 : (d :: ds').takeWhile Char.isDigit = d :: ds' := by
      have h3 := takeWhile_digits_append [] (by decide) (d :: ds') hall
      simpa using h3
    rw [List.cons_append] at h1
    unfold parseIntChars
    rw [List.cons_append, List.dropWhile_cons, List.dropWhile_cons, hw]
    simp only [Bool.false_eq_true, if_false]
    rw [if_neg hm, if_neg hp, if_neg hm, if_neg hp]
    unfold digitsVal
    rw [h1, h2]

theorem parseIntChars_none_iff {l : List Char} :
    parseIntChars l = none ↔ hasLeadingDigit l = false := by
  unfold parseIntChars hasLeadingDigit
  cases hdrop : l.dropWhile Char.isWhitespace with
  | nil => simp
  | cons c rest =>
    dsimp only
    by_cases hm : c = '-'
    · rw [if_pos hm, if_pos hm, Option.map_eq_none', digitsVal_none_iff]
    · by_cases hp : c = '+'
      · rw [if_neg hm, if_neg hm, if_pos hp, if_pos hp, Option.map_eq_none',
          digitsVal_none_iff]
      · rw [if_neg hm, if_neg hm, if_neg hp, if_neg hp, Option.map_eq_none',
          digitsVal_none_iff]
        simp

/-! ### Claim theorems -/

/-- C1: For every expression string and every bounds pair (min, max), if
`parseField` returns successfully, then every element of the returned
sequence lies within `[min, max]` and the sequence is strictly increasing,
hence has no duplicates. -/
theorem parseField_ok_bounds_strictly_increasing
    {expression : String} {lo hi : Int} {l : List Int}
    (h : parseField expression lo hi = .ok l) :
    (∀ x ∈ l, lo ≤ x ∧ x ≤ hi) ∧ l.Sorted (· < ·) ∧ l.Nodup := by
  unfold parseField at h
  cases haux : parseFieldAux (splitOnChar ',' expression.data) lo hi [] with
  | error e => rw [haux] at h; cases h
  | ok vs =>
    rw [haux] at h
    cases h
    have hb := parseFieldAux_bounds (fun x hx => absurd hx (List.not_mem_nil x)) haux
    have hn := parseFieldAux_nodup List.nodup_nil haux
    have hperm := sortInts_perm vs
    have hnd : (sortInts vs).Nodup := hperm.nodup_iff.mpr hn
    refine ⟨?_, sorted_lt_of_le_nodup (sortInts_sorted vs) hnd, hnd⟩
    intro x hx
    exact hb x (hperm.mem_iff.mp hx)

/-- Witness for C1 at the concrete input `parseField "*/15" 0 59`. -/
theorem parseField_ok_bounds_strictly_increasing_witness :
    (∀ x ∈ ([0, 15, 30, 45] : List Int), (0 : Int) ≤ x ∧ x ≤ 59) ∧
    ([0, 15, 30, 45] : List Int).Sorted (· < ·) ∧
    ([0, 15, 30, 45] : List Int).Nodup :=
  @parseField_ok_bounds_strictly_increasing "*/15" 0 59 [0, 15, 30, 45] rfl

/-- C3: Out-of-window filtering is asymmetric: a step-form or range-form
sub-expression never raises an out-of-range error (out-of-window values are
silently dropped, as `parseField "50-70" 0 59 = [50..59]` shows), whereas a
bare single value outside `[min, max]` fails with `OutOfRange`, whose
message carries the value and the bound (as `parseField "60" 0 59` shows). -/
theorem out_of_window_asymmetry :
    (∀ (part : List Char) (lo hi : Int) (e : ParseError),
        (part.contains '/' = true ∨
          (part.contains '/' = false ∧ isRangeForm part = true)) →
        parseSubExpr part lo hi = .error e → e.isOutOfRange = false)
    ∧ (∀ (part : List Char) (lo hi v : Int),
        part.contains '/' = false → isRangeForm part = false → part ≠ ['*'] →
        parseIntChars part = some v → (v < lo ∨ hi < v) →
        parseSubExpr part lo hi = .error (.outOfRange v lo hi))
    ∧ parseField "50-70" 0 59 = .ok [50, 51, 52, 53, 54, 55, 56, 57, 58, 59]
    ∧ parseField "50-70/2" 0 59 = .ok [50, 52, 54, 56, 58]
    ∧ parseField "60" 0 59 = .error (.outOfRange 60 0 59)
    ∧ (ParseError.outOfRange 60 0 59).message = "Value 60 out of range [0-59]" := by
  refine ⟨?_, ?_, rfl, rfl, rfl, rfl⟩
  · intro part lo hi e hform h
    unfold parseSubExpr at h
    rcases hform with hs | ⟨hns, hr⟩
    · rw [if_pos hs] at h
      repeat' split at h
      all_goals cases h
      all_goals rfl
    · rw [if_neg (by rw [hns]; simp), if_pos hr] at h
      repeat' split at h
      all_goals cases h
      all_goals rfl
  · intro part lo hi v hns hnr hnw hv hout
    unfold parseSubExpr
    rw [if_neg (by rw [hns]; simp), if_neg (by rw [hnr]; simp), if_neg hnw, hv]
    simp [show ¬(lo ≤ v ∧ v ≤ hi) by omega]

/-- Witness for C3: both general conjuncts applied at concrete inputs; the
inverted range `"5-2"` errors but not with `OutOfRange`, and the bare value
`"60"` errors with exactly `OutOfRange 60 0 59`. -/
theorem out_of_window_asymmetry_witness :
    (ParseError.invalidRangeOrder 5 2).isOutOfRange = false ∧
    parseSubExpr ("60".data) 0 59 = .error (.outOfRange 60 0 59) :=
  ⟨out_of_window_asymmetry.1 ("5-2".data) 0 10 (.invalidRangeOrder 5 2)
      (Or.inr ⟨rfl, rfl⟩) rfl,
    out_of_window_asymmetry.2.1 ("60".data) 0 59 60 rfl rfl (by decide) rfl
      (Or.inr (by decide))⟩

/-- C4: For a range-form sub-expression (hyphen not at index 0, no slash),
a bound that fails to parse yields `InvalidRange` carrying the token, and
parsed bounds with start > end yield `InvalidRange` carrying both values;
in particular `parseField "5-2" 0 10` fails that way. -/
theorem range_form_errors :
    (∀ (part : List Char) (lo hi : Int),
        part.contains '/' = false → isRangeForm part = true →
        (parseIntChars (rangeStartStr part) = none ∨
          parseIntChars (rangeEndStr part) = none) →
        parseSubExpr part lo hi = .error (.invalidRange (String.mk part)))
    ∧ (∀ (part : List Char) (lo hi s e : Int),
        part.contains '/' = false → isRangeForm part = true →
        parseIntChars (rangeStartStr part) = some s →
        parseIntChars (rangeEndStr part) = some e → e < s →
        parseSubExpr part lo hi = .error (.invalidRangeOrder s e))
    ∧ parseField "5-2" 0 10 = .error (.invalidRangeOrder 5 2)
    ∧ parseField "5-x" 0 10 = .error (.invalidRange "5-x")
    ∧ (ParseError.invalidRangeOrder 5 2).isInvalidRange = true
    ∧ (ParseError.invalidRange "5-x").isInvalidRange = true
    ∧ (ParseError.invalidRangeOrder 5 2).message = "Invalid range: start (5) > end (2)" := by
  refine ⟨?_, ?_, rfl, rfl, rfl, rfl, rfl⟩
  · intro part lo hi hns hr hbad
    unfold parseSubExpr
    rw [if_neg (by rw [hns]; simp), if_pos hr]
    cases h1 : parseIntChars (rangeStartStr part) with
    | none => cases h2 : parseIntChars (rangeEndStr part) <;> rfl
    | some s =>
      cases h2 : parseIntChars (rangeEndStr part) with
      | none => rfl
      | some e =>
        rcases hbad with hb | hb
        · rw [h1] at hb; cases hb
        · rw [h2] at hb; cases hb
  · intro part lo hi s e hns hr h1 h2 hlt
    unfold parseSubExpr
    rw [if_neg (by rw [hns]; simp), if_pos hr, h1, h2]
    simp [show s > e from hlt]

/-- Witness for C4: both general conjuncts applied at the concrete tokens
`"5-x"` (unparsable end bound) and `"5-2"` (inverted bounds). -/
theorem range_form_errors_witness :
    parseSubExpr ("5-x".data) 0 10 = .error (.invalidRange "5-x") ∧
    parseSubExpr ("5-2".data) 0 10 = .error (.invalidRangeOrder 5 2) :=
  ⟨range_form_errors.1 ("5-x".data) 0 10 rfl rfl (Or.inr rfl),
    range_form_errors.2.1 ("5-2".data) 0 10 5 2 rfl rfl rfl rfl (by decide)⟩

/-- C5: In the step form an inverted range is not an error: with both bounds
parsed and start > end, the stepping loop yields nothing and the
sub-expression succeeds contributing no values, in contrast to the plain
range form where start > end fails. -/
theorem step_inverted_range_accepted :
    (∀ (part : List Char) (lo hi step s e : Int),
        part.contains '/' = true →
        parseIntChars (stepStrOf part) = some step → 0 < step →
        rangeOf part ≠ ['*'] → (rangeOf part).contains '-' = true →
        parseIntChars (rangeStartStr (rangeOf part)) = some s →
        parseIntChars (rangeEndStr (rangeOf part)) = some e → e < s →
        parseSubExpr part lo hi = .ok [])
    ∧ parseField "5-2/1" 0 10 = .ok []
    ∧ parseField "1,5-2/1" 0 10 = .ok [1]
    ∧ parseField "5-2" 0 10 = .error (.invalidRangeOrder 5 2) := by
  refine ⟨?_, rfl, rfl, rfl⟩
  intro part lo hi step s e hsl hstep hpos hnw hc h1 h2 hlt
  unfold parseSubExpr
  rw [if_pos hsl, hstep]
  have hcm : '-' ∈ rangeOf part := by simpa using hc
  simp [show ¬ step ≤ 0 by omega, hnw, hcm, h1, h2, stepValues_empty hlt, windowFilter]

/-- Witness for C5: the general conjunct applied at `"5-2/1"` with bounds
`[0, 10]`. -/
theorem step_inverted_range_accepted_witness :
    parseSubExpr ("5-2/1".data) 0 10 = .ok [] :=
  step_inverted_range_accepted.1 ("5-2/1".data) 0 10 1 5 2 rfl rfl (by decide)
    (by decide) rfl rfl rfl (by decide)

/-- C6: A step-form sub-expression (one containing a slash) fails with
`InvalidStep` exactly when its step string fails to parse as an integer or
parses to an integer at most zero; in particular the wildcard step tokens
with step strings `0`, `-5` and `abc` all fail with `InvalidStep` for the
minute bounds. -/
theorem step_invalid_step_iff :
    (∀ (part : List Char) (lo hi : Int),
        part.contains '/' = true →
        ((∃ s, parseSubExpr part lo hi = .error (.invalidStep s)) ↔
          (parseIntChars (stepStrOf part) = none ∨
            ∃ st, parseIntChars (stepStrOf part) = some st ∧ st ≤ 0)))
    ∧ parseField "*/0" 0 59 = .error (.invalidStep "0")
    ∧ parseField "*/-5" 0 59 = .error (.invalidStep "-5")
    ∧ parseField "*/abc" 0 59 = .error (.invalidStep "abc") := by
  refine ⟨?_, rfl, rfl, rfl⟩
  intro part lo hi hsl
  constructor
  · rintro ⟨s, hs⟩
    unfold parseSubExpr at hs
    rw [if_pos hsl] at hs
    cases hq : parseIntChars (stepStrOf part) with
    | none => exact Or.inl rfl
    | some st =>
      rw [hq] at hs
      dsimp only at hs
      by_cases hst : st ≤ 0
      · exact Or.inr ⟨st, rfl, hst⟩
      · rw [if_neg hst] at hs
        exfalso
        repeat' split at hs
        all_goals simp at hs
  · rintro (hq | ⟨st, hq, hst⟩)
    · refine ⟨String.mk (stepStrOf part), ?_⟩
      unfold parseSubExpr
      rw [if_pos hsl, hq]
    · refine ⟨String.mk (stepStrOf part), ?_⟩
      unfold parseSubExpr
      rw [if_pos hsl, hq]
      dsimp only
      rw [if_pos hst]

/-- Witness for C6: the iff applied at the concrete token `"*/0"` with the
minute bounds. -/
theorem step_invalid_step_iff_witness :
    (∃ s, parseSubExpr ("*/0".data) 0 59 = .error (.invalidStep s)) ↔
      (parseIntChars (stepStrOf ("*/0".data)) = none ∨
        ∃ st, parseIntChars (stepStrOf ("*/0".data)) = some st ∧ st ≤ 0) :=
  step_invalid_step_iff.1 ("*/0".data) 0 59 rfl

/-- C7: In the single-value-with-step form the stepping interval is
`[start, max]` (the field's max): the result holds exactly the values
`start, start+step, start+2*step, ...` bounded by `max`, filtered to
`[min, max]`; e.g. `parseField "5/10" 0 59 = [5, 15, 25, 35, 45, 55]`.
An unparsable start fails with `InvalidValue`. -/
theorem single_value_with_step_interval :
    (∀ (part : List Char) (lo hi step s : Int),
        part.contains '/' = true →
        parseIntChars (stepStrOf part) = some step → 0 < step →
        rangeOf part ≠ ['*'] → (rangeOf part).contains '-' = false →
        parseIntChars (rangeOf part) = some s →
        ∃ l, parseSubExpr part lo hi = .ok l ∧
          ∀ x : Int, x ∈ l ↔
            ((∃ k : Nat, x = s + (k : Int) * step ∧ x ≤ hi) ∧ lo ≤ x ∧ x ≤ hi))
    ∧ (∀ (part : List Char) (lo hi step : Int),
        part.contains '/' = true →
        parseIntChars (stepStrOf part) = some step → 0 < step →
        rangeOf part ≠ ['*'] → (rangeOf part).contains '-' = false →
        parseIntChars (rangeOf part) = none →
        parseSubExpr part lo hi = .error (.invalidValueInStep (String.mk (rangeOf part))))
    ∧ parseField "5/10" 0 59 = .ok [5, 15, 25, 35, 45, 55]
    ∧ (ParseError.invalidValueInStep "x").isInvalidValue = true := by
  refine ⟨?_, ?_, rfl, rfl⟩
  · intro part lo hi step s hsl hstep hpos hnw hnc hs
    refine ⟨windowFilter lo hi (stepValues s hi step), ?_, ?_⟩
    · unfold parseSubExpr
      rw [if_pos hsl, hstep]
      dsimp only
      rw [if_neg (by omega : ¬ step ≤ 0), if_neg hnw, if_neg (by rw [hnc]; simp), hs]
    · intro x
      rw [mem_windowFilter, mem_stepValues hpos]
  · intro part lo hi step hsl hstep hpos hnw hnc hs
    unfold parseSubExpr
    rw [if_pos hsl, hstep]
    dsimp only
    rw [if_neg (by omega : ¬ step ≤ 0), if_neg hnw, if_neg (by rw [hnc]; simp), hs]

/-- Witness for C7: both general conjuncts applied at the concrete tokens
`"5/10"` and `"x/10"` with the minute bounds. -/
theorem single_value_with_step_interval_witness :
    (∃ l, parseSubExpr ("5/10".data) 0 59 = .ok l ∧
      ∀ x : Int, x ∈ l ↔
        ((∃ k : Nat, x = 5 + (k : Int) * 10 ∧ x ≤ 59) ∧ (0 : Int) ≤ x ∧ x ≤ 59)) ∧
    parseSubExpr ("x/10".data) 0 59 = .error (.invalidValueInStep "x") :=
  ⟨single_value_with_step_interval.1 ("5/10".data) 0 59 10 5 rfl rfl (by decide)
      (by decide) rfl rfl,
    single_value_with_step_interval.2.1 ("x/10".data) 0 59 10 rfl rfl (by decide)
      (by decide) rfl rfl⟩

/-- C8: `parseCronExpression` fails with `MalformedExpression`, carrying
the observed token count, whenever the trimmed whitespace-split yields
fewer than 6 tokens; in particular `"* * * *"` (4 tokens) and `""`
(1 token, since the JS regex split of the empty string is `[""]`) both
fail this way. -/
theorem malformed_when_fewer_than_six_tokens :
    (∀ s : String, (tokensOf s).length < 6 →
        parseCronExpression s = .error (.malformedExpression (tokensOf s).length))
    ∧ parseCronExpression "* * * *" = .error (.malformedExpression 4)
    ∧ parseCronExpression "" = .error (.malformedExpression 1) := by
  refine ⟨?_, rfl, rfl⟩
  intro s h
  unfold parseCronExpression
  rw [if_pos h]

/-- Witness for C8: the general conjunct applied at the 4-token line. -/
theorem malformed_when_fewer_than_six_tokens_witness :
    parseCronExpression "* * * *" = .error (.malformedExpression (tokensOf "* * * *").length) :=
  malformed_when_fewer_than_six_tokens.1 "* * * *" (by decide)

/-- C9: A sub-expression whose hyphen occurs only at index 0 is not
classified as a range (the guard requires the hyphen index to exceed 0):
it falls to the single-value branch, and when it parses to a negative
integer, every field bound with min at least 0 rejects it with
`OutOfRange`, not `InvalidRange` and not `InvalidValue`; in particular
`parseField "-1" 0 59` fails with `OutOfRange (-1) 0 59`. -/
theorem leading_hyphen_not_range :
    (∀ rest : List Char, isRangeForm ('-' :: rest) = false)
    ∧ (∀ (part : List Char) (lo hi v : Int),
        part.headD ' ' = '-' → part.contains '/' = false →
        parseIntChars part = some v → v < 0 → 0 ≤ lo →
        parseSubExpr part lo hi = .error (.outOfRange v lo hi))
    ∧ parseField "-1" 0 59 = .error (.outOfRange (-1) 0 59)
    ∧ (ParseError.outOfRange (-1) 0 59).isInvalidRange = false
    ∧ (ParseError.outOfRange (-1) 0 59).isInvalidValue = false := by
  refine ⟨?_, ?_, rfl, rfl, rfl⟩
  · intro rest
    simp [isRangeForm]
  · intro part lo hi v hhead hns hv hneg hlo
    cases part with
    | nil => exact absurd hhead (by decide)
    | cons c cs =>
      simp only [List.headD_cons] at hhead
      subst hhead
      unfold parseSubExpr
      rw [if_neg (by rw [hns]; simp)]
      rw [if_neg (by simp [isRangeForm])]
      rw [if_neg (by simp : ¬('-' :: cs = ['*']))]
      rw [hv]
      simp [show ¬(lo ≤ v ∧ v ≤ hi) by omega]

/-- Witness for C9: the general conjuncts applied at the concrete token
`"-1"` with the minute bounds. -/
theorem leading_hyphen_not_range_witness :
    isRangeForm ('-' :: "1".data) = false ∧
    parseSubExpr ("-1".data) 0 59 = .error (.outOfRange (-1) 0 59) :=
  ⟨leading_hyphen_not_range.1 ("1".data),
    leading_hyphen_not_range.2.1 ("-1".data) 0 59 (-1) rfl rfl rfl (by decide) (by decide)⟩

/-- C10: Integer parsing is prefix-lenient: a nonempty all-digit prefix
followed by junk that starts with a non-digit parses the same as the
prefix alone (so `parseField "5abc" 0 59` succeeds with `[5]` and a
step string `15x` yields step 15), and parsing yields `NaN` exactly for
tokens with no leading digit after optional whitespace and sign, which in
the single-value branch fail with `InvalidValue`. -/
theorem parseInt_lenient :
    (∀ ds rest : List Char, ds ≠ [] → ds.all Char.isDigit = true →
        (rest.headD ' ').isDigit = false →
        parseIntChars (ds ++ rest) = parseIntChars ds)
    ∧ (∀ l : List Char, parseIntChars l = none ↔ hasLeadingDigit l = false)
    ∧ parseField "5abc" 0 59 = .ok [5]
    ∧ parseField "*/15x" 0 59 = .ok [0, 15, 30, 45]
    ∧ parseField "abc" 0 59 = .error (.invalidValue "abc") :=
  ⟨fun _ _ h1 h2 h3 => parseIntChars_append_junk h1 h2 h3,
    fun _ => parseIntChars_none_iff, rfl, rfl, rfl⟩

/-- Witness for C10: the prefix-lenience conjunct applied at the digits
`"5"` followed by the junk `"abc"`, and the NaN characterisation at
`"abc"`. -/
theorem parseInt_lenient_witness :
    parseIntChars ("5abc".data) = parseIntChars ("5".data) ∧
    (parseIntChars ("abc".data) = none ↔ hasLeadingDigit ("abc".data) = false) :=
  ⟨parseInt_lenient.1 ("5".data) ("abc".data) (by decide) (by decide) (by decide),
    parseInt_lenient.2.1 ("abc".data)⟩

/-- C2: `parseCronExpression` applied to the canonical example
`"*/15 0 1,15 * 1-5 /usr/bin/find"` succeeds with exactly the six report
lines of the specification, each label padded to a 14-character column. -/
theorem parseCronExpression_main_example :
    parseCronExpression "*/15 0 1,15 * 1-5 /usr/bin/find" =
      .ok ("minute        0 15 30 45\n" ++
           "hour          0\n" ++
           "day of month  1 15\n" ++
           "month         1 2 3 4 5 6 7 8 9 10 11 12\n" ++
           "day of week   1 2 3 4 5\n" ++
           "command       /usr/bin/find") := rfl

end Cron
